import Mathlib

/-!
Shallow embedding of the retrieval core of the pscjam-rag repository and
proofs about it.

Modelling conventions:
* a Python string is a `List Char` (Python indexes and slices strings by
  code point, exactly as `List Char` does);
* a Python float is a rational number `ℚ`; the cosine-similarity function
  itself involves a real square root, so functions that consume similarity
  scores are parametric in the similarity function `SimFn`;
* the OpenAI embedding call (`VectorStore.create_embedding`) is an external
  boundary returning either a vector or `None`; it is a parameter `EmbedFn`;
* Python dict values appearing in metadata and in the JSON snapshot file are
  the inductive `JValue`; a Python dict is an ordered association list;
* methods that read or write `self.embeddings` take the current chunk list
  and return the new one explicitly, so frame properties are statable.
-/

namespace Rag

/-- JSON-serializable Python values, used for metadata values and for the
snapshot file content. -/
inductive JValue where
  | null
  | bool (b : Bool)
  | num (q : ℚ)
  | str (s : String)
  | arr (xs : List JValue)
  | obj (fields : List (String × JValue))

/-- A metadata dict: an ordered association list, as a Python dict is. -/
abbrev Metadata := List (String × JValue)

/-- One entry of `VectorStore.embeddings`: the dict with keys `text`,
`embedding`, `metadata` built in `VectorStore.add_document`. -/
structure Chunk where
  text : List Char
  embedding : List ℚ
  metadata : Metadata

/-- One search result dict as built in `VectorStore.search`. -/
structure QueryResult where
  text : List Char
  metadata : Metadata
  similarity : ℚ

/-- The external embedding boundary: `VectorStore.create_embedding` returns
a vector on HTTP 200 and `None` on any API error or exception. -/
abbrev EmbedFn := List Char → Option (List ℚ)

/-- Similarity function parameter standing for `VectorStore._cosine_similarity`
(query vector, document vector). The real cosine involves a square root, so
the development is parametric in it; every claim proved below holds for every
similarity function. -/
abbrev SimFn := List ℚ → List ℚ → ℚ

/-! ## DocProcessor (src/doc_processor.py) -/

/-- Number of iterations of `for i in range(0, n, s)` for step `s ≥ 1`,
i.e. the number of chunks the slicing loop produces. -/
def numChunks (n s : ℕ) : ℕ := (n + s - 1) / s

/-- The slicing loop of `DocProcessor.chunk_text` for a positive step:
`for i in range(0, len(text), s): chunks.append(text[i:i + s])`, written with
`j` the iteration count so that the loop variable is `i = j * s`. -/
def chunk_text_core (text : List Char) (s : ℕ) : List (List Char) :=
  (List.range (numChunks text.length s)).map fun j => (text.drop (j * s)).take s

/-- The error message Python raises from `range(0, n, 0)`. -/
def rangeStepErr : String := "range() arg 3 must not be zero"

/-- `DocProcessor.chunk_text(text, chunk_size)`.  The source returns `[text]`
when `len(text) <= chunk_size`; otherwise it runs the `range(0, len(text),
chunk_size)` loop, which raises `ValueError` for step `0`, is empty for a
negative step, and slices the text for a positive step. -/
def chunk_text (text : List Char) (chunk_size : ℤ) : Except String (List (List Char)) :=
  if (text.length : ℤ) ≤ chunk_size then .ok [text]
  else if chunk_size = 0 then .error rangeStepErr
  else if chunk_size < 0 then .ok []
  else .ok (chunk_text_core text chunk_size.toNat)

/-- `DocProcessor.process_document`: `chunk_text` with the default
`chunk_size=1000`, which is positive, so the error branch is dead. -/
def process_document (text : List Char) : List (List Char) :=
  if text.length ≤ 1000 then [text] else chunk_text_core text 1000

/-- With the default positive chunk size, `process_document` is exactly the
`chunk_text` result (the source just calls `self.chunk_text(text)`). -/
theorem process_document_eq_chunk_text (text : List Char) :
    chunk_text text 1000 = .ok (process_document text) := by
  unfold chunk_text process_document
  by_cases h : text.length ≤ 1000
  · rw [if_pos (by exact_mod_cast h), if_pos h]
  · rw [if_neg (by exact_mod_cast h), if_neg h, if_neg (by omega), if_neg (by omega)]
    rfl

theorem numChunks_zero {n s : ℕ} (hs : 1 ≤ s) (h : numChunks n s = 0) : n = 0 := by
  unfold numChunks at h
  rcases Nat.eq_zero_or_pos n with h0 | h1
  · exact h0
  · exfalso
    have hle : 1 ≤ (n + s - 1) / s := by
      rw [Nat.one_le_div_iff (by omega)]
      omega
    omega

theorem numChunks_drop {n s k : ℕ} (hs : 1 ≤ s) (h : numChunks n s = k + 1) :
    numChunks (n - s) s = k := by
  unfold numChunks at h ⊢
  have hn : 1 ≤ n := by
    by_contra hc
    have : n = 0 := by omega
    subst this
    rw [Nat.div_eq_of_lt (by omega)] at h
    omega
  rcases le_or_lt s n with hsn | hns
  · have h1 : n - s + s - 1 = n - 1 := by omega
    have h2 : n + s - 1 = n - 1 + s := by omega
    rw [h2, Nat.add_div_right _ (by omega)] at h
    rw [h1]
    omega
  · have h1 : n - s = 0 := by omega
    have h2 : (n + s - 1) / s = 1 := by
      have hlo : 1 ≤ (n + s - 1) / s := by
        rw [Nat.one_le_div_iff (by omega)]
        omega
      have hhi : (n + s - 1) / s < 2 := by
        rw [Nat.div_lt_iff_lt_mul (by omega)]
        omega
      omega
    rw [h1, Nat.div_eq_of_lt (by omega)]
    omega

theorem chunk_slices_flatten {s : ℕ} (hs : 1 ≤ s) :
    ∀ k (text : List Char), numChunks text.length s = k →
      ((List.range k).map fun j => (text.drop (j * s)).take s).flatten = text := by
  intro k
  induction k with
  | zero =>
    intro text hk
    have : text = [] := List.length_eq_zero.mp (numChunks_zero hs hk)
    subst this
    rfl
  | succ k ih =>
    intro text hk
    rw [List.range_succ_eq_map, List.map_cons, List.map_map, List.flatten_cons]
    have hfun : ((fun j => (text.drop (j * s)).take s) ∘ Nat.succ)
        = fun j => ((text.drop s).drop (j * s)).take s := by
      funext j
      show (text.drop (j.succ * s)).take s = ((text.drop s).drop (j * s)).take s
      rw [List.drop_drop, Nat.succ_mul, Nat.add_comm]
    rw [hfun, ih (text.drop s) (by rw [List.length_drop]; exact numChunks_drop hs hk)]
    rw [Nat.zero_mul, List.drop_zero, List.take_append_drop]

/-- C2: for every text and positive chunk size, concatenating the chunks
returned by `chunk_text` in order reproduces the text exactly. -/
theorem chunk_text_roundtrip (text : List Char) (s : ℤ) (hs : 0 < s) :
    (chunk_text text s).map List.flatten = Except.ok text := by
  unfold chunk_text
  by_cases h1 : (text.length : ℤ) ≤ s
  · rw [if_pos h1]
    show Except.ok ([text].flatten) = Except.ok text
    rw [List.flatten_cons, List.flatten_nil, List.append_nil]
  · rw [if_neg h1, if_neg (by omega), if_neg (by omega)]
    show Except.ok ((chunk_text_core text s.toNat).flatten) = Except.ok text
    unfold chunk_text_core
    rw [chunk_slices_flatten (by omega) (numChunks text.length s.toNat) text rfl]

/-- Witness for C2 at a concrete input. -/
theorem chunk_text_roundtrip_witness :
    (0 : ℤ) < 2 ∧ (chunk_text ['a', 'b', 'c'] 2).map List.flatten
      = Except.ok ['a', 'b', 'c'] :=
  ⟨by decide, chunk_text_roundtrip ['a', 'b', 'c'] 2 (by decide)⟩

theorem numChunks_pos {n s : ℕ} (hs : 1 ≤ s) (hn : 1 ≤ n) : 1 ≤ numChunks n s := by
  unfold numChunks
  rw [Nat.one_le_div_iff (by omega)]
  omega

/-- C5 counterexample: on the empty text (a valid input) with positive chunk
size 1, `chunk_text` returns a single chunk of length `0`, so the returned
list fails the every-chunk-has-length-at-least-1 predicate. -/
theorem chunk_text_counterexample_empty :
    chunk_text [] 1 = Except.ok [[]]
    ∧ ([[]] : List (List Char)).all (fun c => decide (1 ≤ c.length)) = false :=
  ⟨rfl, rfl⟩

theorem chunk_text_core_sizes (text : List Char) (sn : ℕ) (hs1 : 1 ≤ sn)
    (hlt : sn < text.length) :
    (∀ c ∈ chunk_text_core text sn, 1 ≤ c.length)
    ∧ (∀ c ∈ (chunk_text_core text sn).dropLast, c.length = sn) := by
  have hA : numChunks text.length sn * sn ≤ text.length + sn - 1 :=
    Nat.div_mul_le_self (text.length + sn - 1) sn
  have hC : (numChunks text.length sn - 1) * sn = numChunks text.length sn * sn - sn := by
    rw [Nat.sub_mul, one_mul]
  constructor
  · intro c hc
    unfold chunk_text_core at hc
    rw [List.mem_map] at hc
    obtain ⟨j, hj, hcj⟩ := hc
    rw [List.mem_range] at hj
    subst hcj
    rw [List.length_take, List.length_drop]
    have hB : j * sn ≤ (numChunks text.length sn - 1) * sn :=
      Nat.mul_le_mul_right sn (by omega)
    exact le_inf hs1 (by omega)
  · intro c hc
    have hk1 : 1 ≤ numChunks text.length sn := numChunks_pos hs1 (by omega)
    have hkeq : numChunks text.length sn - 1 + 1 = numChunks text.length sn := by omega
    unfold chunk_text_core at hc
    rw [← hkeq, List.range_succ, List.map_append, List.map_cons, List.map_nil,
      List.dropLast_concat, List.mem_map] at hc
    obtain ⟨j, hj, hcj⟩ := hc
    rw [List.mem_range] at hj
    subst hcj
    rw [List.length_take, List.length_drop]
    have hB : j * sn ≤ (numChunks text.length sn - 2) * sn :=
      Nat.mul_le_mul_right sn (by omega)
    have hC2 : (numChunks text.length sn - 2) * sn = numChunks text.length sn * sn - 2 * sn :=
      Nat.sub_mul _ 2 sn
    exact inf_eq_left.mpr (by omega)

/-- C5 (amended with non-empty text): for every non-empty text and positive
chunk size, every chunk is non-empty and every chunk except possibly the last
has length exactly `min S (len T)`. -/
theorem chunk_text_sizes (text : List Char) (s : ℤ) (hs : 0 < s) (htext : text ≠ []) :
    ∃ l, chunk_text text s = .ok l
      ∧ (∀ c ∈ l, 1 ≤ c.length)
      ∧ (∀ c ∈ l.dropLast, c.length = min s.toNat text.length) := by
  unfold chunk_text
  by_cases h1 : (text.length : ℤ) ≤ s
  · refine ⟨[text], by rw [if_pos h1], ?_, ?_⟩
    · intro c hc
      rw [List.mem_singleton] at hc
      subst hc
      exact List.length_pos.mpr htext
    · intro c hc
      simp only [List.dropLast_single] at hc
      exact absurd hc (List.not_mem_nil c)
  · rw [if_neg h1, if_neg (by omega), if_neg (by omega)]
    have hs1 : 1 ≤ s.toNat := by omega
    have hlt : s.toNat < text.length := by omega
    obtain ⟨hpos, hfull⟩ := chunk_text_core_sizes text s.toNat hs1 hlt
    refine ⟨chunk_text_core text s.toNat, rfl, hpos, ?_⟩
    intro c hc
    rw [hfull c hc, inf_eq_left.mpr (by omega)]

/-- Witness for C5 at a concrete input. -/
theorem chunk_text_sizes_witness :
    (0 : ℤ) < 2 ∧ (['a', 'b', 'c'] : List Char) ≠ []
      ∧ ∃ l, chunk_text ['a', 'b', 'c'] 2 = .ok l
        ∧ (∀ c ∈ l, 1 ≤ c.length)
        ∧ (∀ c ∈ l.dropLast, c.length = min (2 : ℤ).toNat (['a', 'b', 'c'] : List Char).length) :=
  ⟨by decide, by decide, chunk_text_sizes ['a', 'b', 'c'] 2 (by decide) (by decide)⟩

/-- C6 counterexample: a negative chunk size does not fail; the source
returns the empty chunk list because `range(0, n, negative)` is empty. -/
theorem chunk_text_negative_counterexample :
    chunk_text ['a'] (-1) = Except.ok [] := rfl

/-- C6 (amended): a non-positive chunk size raises an error only when it is
exactly `0` and the text is non-empty (the `ValueError` from a zero `range`
step); a negative chunk size silently yields `[]`, and size `0` with empty
text yields `[text]`. -/
theorem chunk_text_nonpositive (text : List Char) (s : ℤ) (hs : s ≤ 0) :
    (s < 0 → chunk_text text s = .ok [])
    ∧ (s = 0 → text ≠ [] → chunk_text text s = .error rangeStepErr)
    ∧ (s = 0 → text = [] → chunk_text text s = .ok [[]]) := by
  refine ⟨?_, ?_, ?_⟩
  · intro hneg
    unfold chunk_text
    have h0 : (0 : ℤ) ≤ (text.length : ℤ) := Int.ofNat_nonneg text.length
    rw [if_neg (by omega), if_neg (by omega), if_pos hneg]
  · intro h0 hne
    subst h0
    unfold chunk_text
    have hp : 0 < text.length := List.length_pos.mpr hne
    rw [if_neg (by omega), if_pos rfl]
  · intro h0 he
    subst h0
    subst he
    rfl

/-- Witness for C6 at concrete inputs. -/
theorem chunk_text_nonpositive_witness :
    chunk_text ['b'] (-2) = Except.ok [] ∧ chunk_text ['b'] 0 = Except.error rangeStepErr :=
  ⟨(chunk_text_nonpositive ['b'] (-2) (by decide)).1 (by decide),
   (chunk_text_nonpositive ['b'] 0 (by decide)).2.1 rfl (by decide)⟩

/-! ## VectorStore (src/vector_store.py) -/

/-- `VectorStore.add_document(text, metadata)`: embeds the text and, when the
embedding is truthy (Python `if embedding:` — false for `None` and for an
empty list), appends the chunk dict and returns `True`; otherwise the store is
untouched and it returns `False`. -/
def VectorStore.add_document (embed : EmbedFn) (store : List Chunk) (text : List Char)
    (metadata : Metadata) : List Chunk × Bool :=
  match embed text with
  | none => (store, false)
  | some [] => (store, false)
  | some (e0 :: erest) => (store ++ [⟨text, e0 :: erest, metadata⟩], true)

/-- The comparison realized by `results.sort(key=lambda x: x["similarity"],
reverse=True)`: `a` may stay before `b` iff the similarity of `b` is at most
that of `a`. -/
def simGE (a b : QueryResult) : Prop := b.similarity ≤ a.similarity

instance : DecidableRel simGE :=
  fun a b => inferInstanceAs (Decidable (b.similarity ≤ a.similarity))

instance : IsTotal QueryResult simGE := ⟨fun a b => le_total b.similarity a.similarity⟩

instance : IsTrans QueryResult simGE := ⟨fun _ _ _ h1 h2 => le_trans h2 h1⟩

/-- The `results` list built by the loop in `VectorStore.search`: one result
dict per stored doc whose similarity passes the threshold, in store order. -/
def searchResults (sim : SimFn) (store : List Chunk) (qv : List ℚ) (threshold : ℚ) :
    List QueryResult :=
  (store.map fun doc => ⟨doc.text, doc.metadata, sim qv doc.embedding⟩).filter
    fun r => decide (threshold ≤ r.similarity)

/-- A query argument: raw query text (embedded first) or an already computed
query vector. -/
abbrev PyQuery := List Char ⊕ List ℚ

/-- The `query_embedding` local of `VectorStore.search`: embed the query when
it is a string, otherwise use the given vector as is. -/
def queryEmbedding (embed : EmbedFn) (query : PyQuery) : Option (List ℚ) :=
  match query with
  | Sum.inl s => embed s
  | Sum.inr v => some v

/-- `VectorStore.search(query, top_k, similarity_threshold)`.  Returns the
result list and the store after the call.  `if not self.embeddings` and
`if not query_embedding` are Python truthiness tests, so an empty store, a
failed embedding and an empty query vector all yield `[]`.  `list.sort` is a
stable sort, modelled by `List.insertionSort` with `simGE`, which places an
element before exactly the later elements whose key is not larger. -/
def VectorStore.search (embed : EmbedFn) (sim : SimFn) (store : List Chunk)
    (query : PyQuery) (top_k : ℕ) (threshold : ℚ) : List QueryResult × List Chunk :=
  match store with
  | [] => ([], store)
  | _ :: _ =>
    match queryEmbedding embed query with
    | none => ([], store)
    | some [] => ([], store)
    | some (q0 :: qrest) =>
      ((List.insertionSort simGE (searchResults sim store (q0 :: qrest) threshold)).take top_k,
        store)

/-! Stability of the sort: filtering the sorted list down to one similarity
value gives exactly the passing results in store order. -/

theorem filter_orderedInsert_of_eq (x : QueryResult) (v : ℚ) (hx : x.similarity = v) :
    ∀ l : List QueryResult,
      (List.orderedInsert simGE x l).filter (fun r => decide (r.similarity = v))
        = x :: l.filter (fun r => decide (r.similarity = v)) := by
  intro l
  induction l with
  | nil =>
    rw [List.orderedInsert_nil, List.filter_cons, if_pos (by simpa using hx)]
  | cons b l ih =>
    by_cases hle : simGE x b
    · rw [List.orderedInsert, if_pos hle, List.filter_cons, if_pos (by simpa using hx)]
    · have hb : ¬ (b.similarity = v) := by
        unfold simGE at hle
        push_neg at hle
        intro h
        rw [h, ← hx] at hle
        exact lt_irrefl _ hle
      rw [List.orderedInsert, if_neg hle, List.filter_cons, ih, List.filter_cons,
        if_neg (by simpa using hb), if_neg (by simpa using hb)]

theorem filter_orderedInsert_of_ne (x : QueryResult) (v : ℚ) (hx : x.similarity ≠ v) :
    ∀ l : List QueryResult,
      (List.orderedInsert simGE x l).filter (fun r => decide (r.similarity = v))
        = l.filter (fun r => decide (r.similarity = v)) := by
  intro l
  induction l with
  | nil =>
    rw [List.orderedInsert_nil, List.filter_cons, if_neg (by simpa using hx)]
  | cons b l ih =>
    by_cases hle : simGE x b
    · rw [List.orderedInsert, if_pos hle, List.filter_cons, if_neg (by simpa using hx)]
    · rw [List.orderedInsert, if_neg hle, List.filter_cons, ih, List.filter_cons]

theorem filter_insertionSort (v : ℚ) (l : List QueryResult) :
    (List.insertionSort simGE l).filter (fun r => decide (r.similarity = v))
      = l.filter (fun r => decide (r.similarity = v)) := by
  induction l with
  | nil => rfl
  | cons x l ih =>
    rw [List.insertionSort]
    by_cases hx : x.similarity = v
    · rw [filter_orderedInsert_of_eq x v hx, ih, List.filter_cons,
        if_pos (by simpa using hx)]
    · rw [filter_orderedInsert_of_ne x v hx, ih, List.filter_cons,
        if_neg (by simpa using hx)]

/-- C1: for every similarity function, store, query vector, topK and
threshold, the returned list has length at most topK, contains only results
whose similarity is at least the threshold, has non-increasing similarity
values, and keeps results of equal similarity in store (insertion) order: for
every similarity value, the returned results carrying it are an initial run of
the passing results in store order. -/
theorem search_ranked (embed : EmbedFn) (sim : SimFn) (store : List Chunk)
    (qv : List ℚ) (k : ℕ) (t : ℚ) :
    (VectorStore.search embed sim store (Sum.inr qv) k t).1.length ≤ k
    ∧ (∀ r ∈ (VectorStore.search embed sim store (Sum.inr qv) k t).1, t ≤ r.similarity)
    ∧ (VectorStore.search embed sim store (Sum.inr qv) k t).1.Pairwise simGE
    ∧ (∀ v : ℚ, ∃ rest,
        (VectorStore.search embed sim store (Sum.inr qv) k t).1.filter
            (fun r => decide (r.similarity = v)) ++ rest
          = (searchResults sim store qv t).filter (fun r => decide (r.similarity = v))) := by
  match store, qv with
  | [], _ =>
    refine ⟨Nat.zero_le k, fun r hr => absurd hr (List.not_mem_nil r), List.Pairwise.nil, ?_⟩
    intro v
    exact ⟨[], rfl⟩
  | c :: cs, [] =>
    refine ⟨Nat.zero_le k, fun r hr => absurd hr (List.not_mem_nil r), List.Pairwise.nil, ?_⟩
    intro v
    exact ⟨(searchResults sim (c :: cs) [] t).filter (fun r => decide (r.similarity = v)), rfl⟩
  | c :: cs, q0 :: qrest =>
    have hshow : (VectorStore.search embed sim (c :: cs) (Sum.inr (q0 :: qrest)) k t).1
        = (List.insertionSort simGE (searchResults sim (c :: cs) (q0 :: qrest) t)).take k := rfl
    rw [hshow]
    refine ⟨?_, ?_, ?_, ?_⟩
    · rw [List.length_take]
      exact inf_le_left
    · intro r hr
      have hmem : r ∈ List.insertionSort simGE (searchResults sim (c :: cs) (q0 :: qrest) t) :=
        (List.take_sublist _ _).mem hr
      have hmem2 : r ∈ searchResults sim (c :: cs) (q0 :: qrest) t :=
        (List.perm_insertionSort simGE _).mem_iff.mp hmem
      unfold searchResults at hmem2
      rw [List.mem_filter] at hmem2
      simpa using hmem2.2
    · exact List.Pairwise.sublist (List.take_sublist _ _)
        (List.sorted_insertionSort simGE _)
    · intro v
      refine ⟨(List.drop k (List.insertionSort simGE
          (searchResults sim (c :: cs) (q0 :: qrest) t))).filter
            (fun r => decide (r.similarity = v)), ?_⟩
      rw [← List.filter_append, List.take_append_drop, filter_insertionSort]

/-! ## RAGEngine (src/rag_engine.py) -/

/-- The metadata key the engine assigns per chunk. -/
def chunkIdKey : String := "chunk_id"

/-- Python dict assignment `m[k] = v` on an ordered dict: updates the value
in place when the key is present, appends the pair otherwise. -/
def dictSet (m : Metadata) (k : String) (v : JValue) : Metadata :=
  if (m.map Prod.fst).contains k then
    m.map fun p => if p.1 = k then (k, v) else p
  else m ++ [(k, v)]

/-- One iteration of the `for i, chunk in enumerate(chunks)` loop of
`RAGEngine.add_document`: insert the chunk with `chunk_id := i` set on a copy
of the metadata, incrementing the success count when the insert reports
success. -/
def addDocStep (embed : EmbedFn) (metadata : Metadata) (acc : List Chunk × ℕ)
    (ic : ℕ × List Char) : List Chunk × ℕ :=
  let r := VectorStore.add_document embed acc.1 ic.2
    (dictSet metadata chunkIdKey (JValue.num ic.1))
  (r.1, if r.2 then acc.2 + 1 else acc.2)

/-- `RAGEngine.add_document(text, metadata)`: chunks the document with the
default chunk size, then runs the enumerate loop, returning the final store
and the success count. -/
def RAGEngine.add_document (embed : EmbedFn) (store : List Chunk) (text : List Char)
    (metadata : Metadata) : List Chunk × ℕ :=
  ((process_document text).enum).foldl (addDocStep embed metadata) (store, 0)

/-- `RAGEngine.query(query_text)`: delegates to `VectorStore.search` with the
default `top_k=3` and `similarity_threshold=0.2`. -/
def RAGEngine.query (embed : EmbedFn) (sim : SimFn) (store : List Chunk)
    (qtext : List Char) : List QueryResult × List Chunk :=
  VectorStore.search embed sim store (Sum.inl qtext) 3 (1/5)

/-- The chunks `RAGEngine.add_document` successfully embeds and inserts, in
order: one per enumerated chunk whose embedding is truthy, carrying the
metadata copy with `chunk_id` set to the chunk index. -/
def embeddedChunks (embed : EmbedFn) (metadata : Metadata) (pairs : List (ℕ × List Char)) :
    List Chunk :=
  pairs.filterMap fun ic =>
    match embed ic.2 with
    | none => none
    | some [] => none
    | some (e0 :: erest) =>
      some ⟨ic.2, e0 :: erest, dictSet metadata chunkIdKey (JValue.num ic.1)⟩

theorem addDocStep_eq (embed : EmbedFn) (metadata : Metadata) (store : List Chunk)
    (c0 : ℕ) (ic : ℕ × List Char) :
    addDocStep embed metadata (store, c0) ic
      = match embed ic.2 with
        | none => (store, c0)
        | some [] => (store, c0)
        | some (e0 :: erest) =>
          (store ++ [⟨ic.2, e0 :: erest, dictSet metadata chunkIdKey (JValue.num ic.1)⟩],
            c0 + 1) := by
  unfold addDocStep VectorStore.add_document
  rcases he : embed ic.2 with _ | (_ | ⟨e0, erest⟩) <;> rfl

theorem add_document_foldl (embed : EmbedFn) (metadata : Metadata) :
    ∀ (pairs : List (ℕ × List Char)) (store : List Chunk) (c0 : ℕ),
      pairs.foldl (addDocStep embed metadata) (store, c0)
        = (store ++ embeddedChunks embed metadata pairs,
           c0 + (embeddedChunks embed metadata pairs).length) := by
  intro pairs
  induction pairs with
  | nil =>
    intro store c0
    simp [embeddedChunks]
  | cons ic rest ih =>
    intro store c0
    rw [List.foldl_cons, addDocStep_eq]
    unfold embeddedChunks
    rw [List.filterMap_cons]
    rcases he : embed ic.2 with _ | (_ | ⟨e0, erest⟩)
    · exact ih store c0
    · exact ih store c0
    · refine Eq.trans (ih (store
        ++ [⟨ic.2, e0 :: erest, dictSet metadata chunkIdKey (JValue.num ic.1)⟩]) (c0 + 1)) ?_
      rw [List.append_assoc, List.singleton_append, List.length_cons]
      have hcount : c0 + 1 + (embeddedChunks embed metadata rest).length
          = c0 + ((embeddedChunks embed metadata rest).length + 1) := by omega
      rw [hcount]
      rfl

/-- C3: `addDocument` chunks the text, attaches a 0-based `chunk_id` to a
metadata copy per chunk, skips chunks whose embedding fails, returns the
number of chunks successfully embedded and inserted, and grows the store by
exactly that count. -/
theorem add_document_spec (embed : EmbedFn) (store : List Chunk) (text : List Char)
    (metadata : Metadata) :
    RAGEngine.add_document embed store text metadata
        = (store ++ embeddedChunks embed metadata (process_document text).enum,
           (embeddedChunks embed metadata (process_document text).enum).length)
    ∧ (RAGEngine.add_document embed store text metadata).1.length
        = store.length + (RAGEngine.add_document embed store text metadata).2 := by
  have h : RAGEngine.add_document embed store text metadata
      = (store ++ embeddedChunks embed metadata (process_document text).enum,
         0 + (embeddedChunks embed metadata (process_document text).enum).length) :=
    add_document_foldl embed metadata (process_document text).enum store 0
  rw [Nat.zero_add] at h
  refine ⟨h, ?_⟩
  rw [h]
  exact List.length_append store _

/-! ## Embedding failure during search (C4) and the search frame (C10) -/

theorem VectorStore.search_snd (embed : EmbedFn) (sim : SimFn) (store : List Chunk)
    (query : PyQuery) (top_k : ℕ) (threshold : ℚ) :
    (VectorStore.search embed sim store query top_k threshold).2 = store := by
  unfold VectorStore.search
  split
  · rfl
  · split <;> rfl

/-- C10: `search` (and the engine `query` built on it) leaves the stored
chunk sequence exactly as it was; no branch of either function writes
`self.embeddings`. -/
theorem search_frame (embed : EmbedFn) (sim : SimFn) (store : List Chunk)
    (query : PyQuery) (top_k : ℕ) (threshold : ℚ) (qtext : List Char) :
    (VectorStore.search embed sim store query top_k threshold).2 = store
    ∧ (RAGEngine.query embed sim store qtext).2 = store :=
  ⟨VectorStore.search_snd embed sim store query top_k threshold,
   VectorStore.search_snd embed sim store (Sum.inl qtext) 3 (1/5)⟩

/-- C4 (amended): when embedding the query fails, `search` logs and returns
the empty list — the same value an empty or matchless index produces — rather
than an error. -/
theorem search_embed_failure (embed : EmbedFn) (sim : SimFn) (store : List Chunk)
    (q : List Char) (k : ℕ) (t : ℚ) (h : embed q = none) :
    (VectorStore.search embed sim store (Sum.inl q) k t).1 = [] := by
  have hq : queryEmbedding embed (Sum.inl q) = none := h
  rcases store with _ | ⟨c, cs⟩
  · rfl
  · simp only [VectorStore.search, hq]

/-- An embedding boundary that always fails (provider error). -/
def embedFailAll : EmbedFn := fun _ => none

/-- A trivial similarity function for concrete evaluations. -/
def simZero : SimFn := fun _ _ => 0

/-- A concrete stored chunk. -/
def chunkA : Chunk := ⟨['a'], [1], []⟩

/-- C4 counterexample: with a failing embedder and a non-empty store, search
returns `[]` — the very same value returned for an empty index — so the
failure is not an explicit error distinguishable from "no matches". -/
theorem search_error_counterexample :
    (VectorStore.search embedFailAll simZero [chunkA] (Sum.inl ['q']) 3 0).1 = []
    ∧ (VectorStore.search embedFailAll simZero [] (Sum.inl ['q']) 3 0).1 = [] :=
  ⟨rfl, rfl⟩

/-- Witness for the amended C4 at a concrete input. -/
theorem search_embed_failure_witness :
    (VectorStore.search embedFailAll simZero [chunkA] (Sum.inl ['z']) 2 0).1 = [] :=
  search_embed_failure embedFailAll simZero [chunkA] ['z'] 2 0 rfl

/-! ## Snapshot save and load (src/vector_store.py)

`save_embeddings` writes `json.dump(self.embeddings, f)`; `load_embeddings`
assigns `self.embeddings = json.load(f)`.  The file system and the JSON text
layer are modelled by the parsed JSON value: a snapshot file is `none` when
the file does not exist, `some none` when its content does not parse
(`json.load` raises, the store is left untouched and `False` is returned),
and `some (some v)` when it parses to the JSON value `v`.  The source
performs no shape validation on the parsed value, so the model considers the
parsed values that are encodings of chunk lists — exactly what
`save_embeddings` ever writes. -/

/-- JSON encoding of one stored chunk, with the dict key order
`VectorStore.add_document` uses. -/
def encodeChunk (c : Chunk) : JValue :=
  .obj [("text", .str (String.mk c.text)),
        ("embedding", .arr (c.embedding.map JValue.num)),
        ("metadata", .obj c.metadata)]

/-- Reads back a JSON array of numbers as a vector. -/
def decodeNums : List JValue → Option (List ℚ)
  | [] => some []
  | .num q :: rest => (decodeNums rest).map fun l => q :: l
  | _ => none

/-- Reads back the JSON encoding of one chunk. -/
def decodeChunk : JValue → Option Chunk
  | .obj [("text", .str t), ("embedding", .arr es), ("metadata", .obj m)] =>
    (decodeNums es).map fun e => ⟨t.toList, e, m⟩
  | _ => none

/-- Reads back a JSON array of chunk encodings. -/
def decodeList : List JValue → Option (List Chunk)
  | [] => some []
  | v :: rest =>
    match decodeChunk v with
    | some c => (decodeList rest).map fun l => c :: l
    | none => none

/-- Reads back a whole snapshot value. -/
def decodeChunks : JValue → Option (List Chunk)
  | .arr items => decodeList items
  | _ => none

/-- `VectorStore.save_embeddings`: the JSON value `json.dump` serializes. -/
def save_embeddings (store : List Chunk) : JValue :=
  .arr (store.map encodeChunk)

/-- A snapshot file as seen by `load_embeddings`: missing, unparseable, or
parsed to a JSON value. -/
abbrev SnapshotFile := Option (Option JValue)

/-- `VectorStore.load_embeddings`: `False` when the file is missing, `False`
with the store untouched when `json.load` raises, and on success the store is
replaced wholesale by the loaded chunk list. -/
def load_embeddings (file : SnapshotFile) (store : List Chunk) : List Chunk × Bool :=
  match file with
  | none => (store, false)
  | some none => (store, false)
  | some (some v) =>
    match decodeChunks v with
    | some cs => (cs, true)
    | none => (store, false)

/-- Scalar JSON values: what a flat metadata mapping may carry. -/
def isScalar : JValue → Bool
  | .null => true
  | .bool _ => true
  | .num _ => true
  | .str _ => true
  | .arr _ => false
  | .obj _ => false

/-- A flat serializable metadata mapping: every value is a scalar. -/
def metaFlat (m : Metadata) : Bool :=
  m.all fun p => isScalar p.2

theorem decodeNums_encode (e : List ℚ) : decodeNums (e.map JValue.num) = some e := by
  induction e with
  | nil => rfl
  | cons q rest ih =>
    rw [List.map_cons]
    show (decodeNums (rest.map JValue.num)).map _ = _
    rw [ih]
    rfl

theorem decodeChunk_encode (c : Chunk) : decodeChunk (encodeChunk c) = some c := by
  show (decodeNums (c.embedding.map JValue.num)).map _ = _
  rw [decodeNums_encode]
  rfl

theorem decodeList_encode (store : List Chunk) :
    decodeList (store.map encodeChunk) = some store := by
  induction store with
  | nil => rfl
  | cons c rest ih =>
    rw [List.map_cons]
    show (match decodeChunk (encodeChunk c) with
      | some c => (decodeList (rest.map encodeChunk)).map fun l => c :: l
      | none => none) = _
    rw [decodeChunk_encode, ih]
    rfl

/-- C7: loading a saved snapshot reconstructs the chunk sequence element-wise
(text, vector, metadata), in the same order, for every index whose metadata
values are flat serializable mappings (the flatness hypothesis mirrors the
claim; in this model every representable metadata dict serializes, so the
round trip needs no more than it). -/
theorem snapshot_roundtrip (store old : List Chunk)
    (hflat : ∀ c ∈ store, metaFlat c.metadata = true) :
    load_embeddings (some (some (save_embeddings store))) old = (store, true) := by
  show (match decodeChunks (save_embeddings store) with
    | some cs => (cs, true)
    | none => (old, false)) = _
  show (match decodeList (store.map encodeChunk) with
    | some cs => (cs, true)
    | none => (old, false)) = _
  rw [decodeList_encode]

/-- Witness for C7 at a concrete one-chunk index. -/
theorem snapshot_roundtrip_witness :
    (∀ c ∈ [chunkA], metaFlat c.metadata = true)
      ∧ load_embeddings (some (some (save_embeddings [chunkA]))) [] = ([chunkA], true) :=
  ⟨by decide, snapshot_roundtrip [chunkA] [] (by decide)⟩

/-- C8: `snapshotLoad` returns `false` — not an error — on a missing file and
on a file whose content fails to parse, leaving the store exactly as it was
in both cases; on success the store is fully replaced by the loaded content. -/
theorem load_embeddings_spec (store : List Chunk) (v : JValue) (cs : List Chunk) :
    load_embeddings none store = (store, false)
    ∧ load_embeddings (some none) store = (store, false)
    ∧ (decodeChunks v = some cs → load_embeddings (some (some v)) store = (cs, true)) := by
  refine ⟨rfl, rfl, ?_⟩
  intro h
  show (match decodeChunks v with
    | some cs => (cs, true)
    | none => (store, false)) = _
  rw [h]

/-- Witness for C8 at a concrete file value. -/
theorem load_embeddings_spec_witness :
    load_embeddings none [chunkA] = ([chunkA], false)
    ∧ load_embeddings (some none) [chunkA] = ([chunkA], false)
    ∧ load_embeddings (some (some (save_embeddings []))) [chunkA] = ([], true) :=
  ⟨(load_embeddings_spec [chunkA] (save_embeddings []) []).1,
   (load_embeddings_spec [chunkA] (save_embeddings []) []).2.1,
   (load_embeddings_spec [chunkA] (save_embeddings []) []).2.2 rfl⟩

/-! ## MCPSupportEngine response generation (src/mcp_support.py)

`_generate_response_from_context(query, results)`: empty results give a fixed
no-information answer; a top similarity below `0.25` is a hard gate that
gives a fixed not-found answer — except that queries containing
`"tool useful"` or `"useful tool"` (after `.lower()`) get a hardcoded canned
answer; otherwise an external completion call is made, falling back to the
rule-based generator when it fails or returns a falsy value.  The two
external paths are parameters (`llmAnswer` for `_call_openai_completion`,
`ruleBasedAnswer` for `_generate_rule_based_response`). -/

/-- Python `needle == hay[:len(needle)]` on code points. -/
def leadsWith : List Char → List Char → Bool
  | [], _ => true
  | _ :: _, [] => false
  | c :: cs, h :: hs => c == h && leadsWith cs hs

/-- Python substring containment `needle in hay`. -/
def pyIn (needle : List Char) : List Char → Bool
  | [] => needle.isEmpty
  | h :: hs => leadsWith needle (h :: hs) || pyIn needle hs

/-- Python `str.lower()` (ASCII-faithful). -/
def pyLower (s : List Char) : List Char := s.map Char.toLower

/-- The special-cased query test: `"tool useful" in query or "useful tool" in
query` after lowering. -/
def specialQuery (q : List Char) : Bool :=
  pyIn "tool useful".toList (pyLower q) || pyIn "useful tool".toList (pyLower q)

/-- Fixed answer for an empty result list. -/
def noResultsText : String :=
  "I don\x27t have information about that in the GC Forms documentation."

/-- The hardcoded canned answer for the special-cased query. -/
def cannedToolUsefulText : String :=
  "Based on the GC Forms documentation, this tool is designed to help users create and manage forms efficiently. It offers features for data collection, surveys, and feedback, with capabilities for form sharing and result collection. The documentation suggests it\x27s useful for understanding how people use the forms, which helps improve the service."

/-- The generic not-found answer of the low-similarity gate. -/
def notFoundText : String :=
  "I couldn\x27t find specific information about that in the GC Forms documentation."

/-- `MCPSupportEngine._generate_response_from_context`. -/
def generateResponseFromContext (llmAnswer : Option String) (ruleBasedAnswer : String)
    (query : List Char) (results : List QueryResult) : String :=
  match results with
  | [] => noResultsText
  | top :: _ =>
    if top.similarity < 1/4 then
      if specialQuery query then cannedToolUsefulText else notFoundText
    else
      match llmAnswer with
      | none => ruleBasedAnswer
      | some r => if r = "" then ruleBasedAnswer else r

/-- A low-relevance concrete result for counterexamples. -/
def lowResult : QueryResult := ⟨['d'], [], 0⟩

/-- C9 counterexample: for the query "is this tool useful" with one result of
similarity 0 (below 0.25), the composer does not emit the generic not-found
answer; it returns the hardcoded canned answer instead. -/
theorem low_similarity_counterexample :
    generateResponseFromContext none "" "is this tool useful".toList [lowResult]
        = cannedToolUsefulText
    ∧ cannedToolUsefulText ≠ notFoundText := by
  constructor
  · show (if (lowResult.similarity : ℚ) < 1/4 then
        if specialQuery "is this tool useful".toList then cannedToolUsefulText
        else notFoundText
      else _) = cannedToolUsefulText
    rw [if_pos (by norm_num [lowResult]), if_pos (by decide)]
  · decide

/-- C9 (amended): when the results are non-empty and the top similarity is
below the 0.25 gate, the composer returns a fixed string independent of the
chunks — the generic not-found answer, except the hardcoded canned answer for
queries containing "tool useful" or "useful tool". -/
theorem low_similarity_gate (llmAnswer : Option String) (ruleBasedAnswer : String)
    (query : List Char) (top : QueryResult) (rest : List QueryResult)
    (hsim : top.similarity < 1/4) :
    generateResponseFromContext llmAnswer ruleBasedAnswer query (top :: rest)
      = if specialQuery query then cannedToolUsefulText else notFoundText := by
  show (if top.similarity < 1/4 then _ else _) = _
  rw [if_pos hsim]

/-- Witness for the amended C9 at a concrete non-special query. -/
theorem low_similarity_gate_witness :
    (lowResult.similarity : ℚ) < 1/4
    ∧ generateResponseFromContext none "" "hello".toList [lowResult] = notFoundText := by
  have h : (lowResult.similarity : ℚ) < 1/4 := by norm_num [lowResult]
  refine ⟨h, ?_⟩
  rw [low_similarity_gate none "" "hello".toList lowResult [] h, if_neg (by decide)]

end Rag
